import Mathlib

/-!
# Verification of `read_calendar` (robotica-rust python helpers)

Shallow embedding of `src/robotica-tokio/python/robotica.py` and
`src/robotica-backend/python/robotica.py`.  Both files define a
`read_calendar` function that

1. parses iCalendar bytes (`icalendar.Calendar.from_ical`),
2. expands recurring events inside a date window
   (`recurring_ical_events.of(calendar).between(start, end)`),
3. normalizes every property of every expanded event by runtime type
   dispatch:
   * `vDDDTypes` wrapping a `datetime` becomes `dt.astimezone(timezone.utc)`;
   * `vDDDTypes` wrapping a `date` or a `timedelta` passes through;
   * `vDDDTypes` wrapping anything else raises
     `RuntimeError(f"Unknown type for {dt} key {i}")`;
   * `vText`, `int` and `str` values pass through;
   * any other value raises `RuntimeError(f"Unknown type for {i}")`.

Steps 1 and 2 are calls into external libraries whose code is not part of
this repository; they are modelled from the specification (each such
definition says so in its doc comment).  Step 3 is embedded directly from
the source, once per file (the two loops are textually identical in the
two files; proving that they compute the same function is one of the
claims).

Python `datetime` values carried by calendar properties are modelled as
timezone-aware datetimes: a wall-clock reading `wall` (seconds) together
with a UTC offset `offset` (seconds); the absolute instant denoted is
`wall - offset`.  `dt.astimezone(timezone.utc)` keeps the absolute
instant and sets the offset to `0`.  Pure `date` values are a single
ordinal day number, `timedelta` values a signed number of seconds.
-/

set_option autoImplicit false

namespace Robotica

/-- Value carried by `icalendar.prop.vDDDTypes.dt`: an aware `datetime`
(wall-clock seconds plus UTC offset in seconds), a pure calendar `date`
(ordinal day), a `timedelta` (seconds), or some other object (modelled by
its printed representation, which Python would interpolate into the error
message). -/
inductive DDDValue where
  | datetime (wall offset : Int)
  | date (day : Int)
  | timedelta (seconds : Int)
  | other (repr : String)
  deriving DecidableEq, Repr

/-- Absolute instant denoted by an aware Python `datetime`. -/
def instantOf (wall offset : Int) : Int := wall - offset

/-- Python value of an expanded event's property, as `read_calendar`'s
`isinstance` dispatch distinguishes them: a `vDDDTypes` wrapper, a
`vText`, an `int`, a plain `str`, or some other object (e.g. a
`vDDDLists`), modelled by its printed representation. -/
inductive PyValue where
  | vDDDTypes (dt : DDDValue)
  | vText (s : String)
  | int (n : Int)
  | str (s : String)
  | other (repr : String)
  deriving DecidableEq, Repr

/-- Value stored into `json_data` by the normalization loop.  The loop
stores Python objects unchanged except for the `datetime` case, so the
output kinds mirror the input kinds minus the two `other` cases. -/
inductive RecValue where
  | datetime (wall offset : Int)
  | date (day : Int)
  | timedelta (seconds : Int)
  | vText (s : String)
  | int (n : Int)
  | str (s : String)
  deriving DecidableEq, Repr

/-- Errors of the `read_calendar` pipeline.  The two `RuntimeError`
messages of the normalization loop are kept structurally:
`unknownDDDType` models `f"Unknown type for {dt} key {i}"` (it carries
the printed value and the key) and `unknownType` models
`f"Unknown type for {i}"` (it carries only the key).  `parseError` and
`invalidWindow` are the failure modes of the external parse and
expansion steps. -/
inductive RCError where
  | parseError
  | invalidWindow
  | unknownDDDType (value : String) (key : String)
  | unknownType (key : String)
  deriving DecidableEq, Repr

/-- Property name identified by a normalization error, when there is one. -/
def RCError.key? : RCError → Option String
  | .parseError => none
  | .invalidWindow => none
  | .unknownDDDType _ k => some k
  | .unknownType k => some k

/-- Raw value identified by a normalization error, when the message
includes one. -/
def RCError.value? : RCError → Option String
  | .parseError => none
  | .invalidWindow => none
  | .unknownDDDType v _ => some v
  | .unknownType _ => none

/-- Canonical kinds of the specification: a record value is canonical
when it is a UTC-zoned instant (offset `0`), a civil date, a duration,
an integer, or text (`vText` or `str`). -/
def RecValue.isCanonical : RecValue → Bool
  | .datetime _ offset => offset == 0
  | .date _ => true
  | .timedelta _ => true
  | .vText _ => true
  | .int _ => true
  | .str _ => true

/-- Property values the dispatch of the loop can map: everything except
a `vDDDTypes` wrapping an unknown object and a non-`vDDDTypes` unknown
object. -/
def PyValue.isMappable : PyValue → Bool
  | .vDDDTypes (.other _) => false
  | .vDDDTypes _ => true
  | .vText _ => true
  | .int _ => true
  | .str _ => true
  | .other _ => false

/-- An occurrence's properties, in the iteration order of
`event.keys()`. -/
abbrev Props := List (String × PyValue)

/-- A normalized record, in insertion order of `json_data`. -/
abbrev Record := List (String × RecValue)

namespace Tokio

/-- Body of the inner dispatch of `read_calendar` in
`src/robotica-tokio/python/robotica.py` (lines 16–33), for one key `i`
and one value `event[i]`. -/
def normalizeValue (i : String) (v : PyValue) : Except RCError RecValue :=
  match v with
  | .vDDDTypes dt =>
    match dt with
    | .datetime wall offset => .ok (.datetime (wall - offset) 0)
    | .date day => .ok (.date day)
    | .timedelta s => .ok (.timedelta s)
    | .other r => .error (.unknownDDDType r i)
  | .vText s => .ok (.vText s)
  | .int n => .ok (.int n)
  | .str s => .ok (.str s)
  | .other _ => .error (.unknownType i)

/-- Inner loop of `read_calendar` (tokio file): builds `json_data` by
normalizing each property in key order; the first raised error aborts
the whole call. -/
def normalizeEvent : Props → Except RCError Record
  | [] => .ok []
  | (i, v) :: rest =>
    match normalizeValue i v with
    | .error e => .error e
    | .ok nv =>
      match normalizeEvent rest with
      | .error e => .error e
      | .ok r => .ok ((i, nv) :: r)

/-- Outer loop of `read_calendar` (tokio file): one record per expanded
event, appended in order; a raised error aborts the whole call. -/
def normalizeEvents : List Props → Except RCError (List Record)
  | [] => .ok []
  | ev :: rest =>
    match normalizeEvent ev with
    | .error e => .error e
    | .ok r =>
      match normalizeEvents rest with
      | .error e => .error e
      | .ok rs => .ok (r :: rs)

end Tokio

namespace Backend

/-- Body of the inner dispatch of `read_calendar` in
`src/robotica-backend/python/robotica.py` (lines 16–33), for one key `i`
and one value `event[i]`. -/
def normalizeValue (i : String) (v : PyValue) : Except RCError RecValue :=
  match v with
  | .vDDDTypes dt =>
    match dt with
    | .datetime wall offset => .ok (.datetime (wall - offset) 0)
    | .date day => .ok (.date day)
    | .timedelta s => .ok (.timedelta s)
    | .other r => .error (.unknownDDDType r i)
  | .vText s => .ok (.vText s)
  | .int n => .ok (.int n)
  | .str s => .ok (.str s)
  | .other _ => .error (.unknownType i)

/-- Inner loop of `read_calendar` (backend file). -/
def normalizeEvent : Props → Except RCError Record
  | [] => .ok []
  | (i, v) :: rest =>
    match normalizeValue i v with
    | .error e => .error e
    | .ok nv =>
      match normalizeEvent rest with
      | .error e => .error e
      | .ok r => .ok ((i, nv) :: r)

/-- Outer loop of `read_calendar` (backend file). -/
def normalizeEvents : List Props → Except RCError (List Record)
  | [] => .ok []
  | ev :: rest =>
    match normalizeEvent ev with
    | .error e => .error e
    | .ok r =>
      match normalizeEvents rest with
      | .error e => .error e
      | .ok rs => .ok (r :: rs)

end Backend

/-- Modelled from the spec: one event component of the parsed calendar
as the expander sees it (the code of `recurring_ical_events` is not in
this repository).  `instants` is the ordered sequence of candidate start
instants of §4.2 step 2 (RRULE and RDATE instants minus EXDATE matches;
a non-recurring event contributes its single DTSTART); `propsAt t` gives
the properties of the occurrence generated at instant `t` (the master's
properties with shifted DTSTART/DTEND, or a matching override's
properties, per §4.2 step 3 — that substitution is kept abstract since
no claim depends on its details). -/
structure CalEvent where
  instants : List Int
  propsAt : Int → Props

/-- Modelled from the spec: the parsed calendar document, an ordered
collection of event components (§3), in document order. -/
structure CalendarDocument where
  events : List CalEvent

/-- Modelled from the spec: an occurrence produced by expansion — a
resolved start instant together with its properties (§3). -/
structure Occurrence where
  start : Int
  props : Props

/-- Occurrences an event contributes to the half-open window
`[ws, we)`: its candidate instants restricted to `ws ≤ t < we`, in
generation order (spec §4.2 step 5 and the half-open edge case). -/
def occurrencesIn (ev : CalEvent) (ws we : Int) : List Occurrence :=
  (ev.instants.filter fun t => decide (ws ≤ t) && decide (t < we)).map
    fun t => ⟨t, ev.propsAt t⟩

/-- Modelled from the spec:
`recurring_ical_events.of(calendar).between(start, end)` — the external
expansion capability.  Fails with `InvalidWindowError` when
`window_start > window_end` (§4.2); otherwise emits every event's
windowed occurrences in document order. -/
def between (doc : CalendarDocument) (ws we : Int) :
    Except RCError (List Occurrence) :=
  if we < ws then .error .invalidWindow
  else .ok (doc.events.flatMap fun ev => occurrencesIn ev ws we)

/-- Modelled from the spec: the external iCalendar parser
(`icalendar.Calendar.from_ical`, not code of this repository).  It is
given by which inputs it accepts (`wellFormed`) and what document a
well-formed input denotes (`docOf`); a non-well-formed input fails with
`ParseError` and yields no document (§4.1). -/
structure Parser where
  wellFormed : String → Bool
  docOf : String → CalendarDocument

/-- Modelled from the spec: running the parser on raw calendar text. -/
def Parser.parse (p : Parser) (ical : String) :
    Except RCError CalendarDocument :=
  if p.wellFormed ical then .ok (p.docOf ical) else .error .parseError

namespace Tokio

/-- `read_calendar(ical_string, start_date, end_date)` of
`src/robotica-tokio/python/robotica.py`: parse, expand, then normalize
every occurrence.  The parse and expansion steps are the spec-modelled
external capabilities; the normalization is the embedded source loop. -/
def read_calendar (p : Parser) (ical : String) (ws we : Int) :
    Except RCError (List Record) :=
  match p.parse ical with
  | .error e => .error e
  | .ok doc =>
    match between doc ws we with
    | .error e => .error e
    | .ok occs => normalizeEvents (occs.map Occurrence.props)

end Tokio

namespace Backend

/-- `read_calendar(url, start_date, end_date)` of
`src/robotica-backend/python/robotica.py`: identical pipeline, except
the calendar text is obtained by fetching `url` through the injected
fetch capability (`urllib.request.urlopen(url).read()`), which is
outside the core per the spec. -/
def read_calendar (fetch : String → String) (p : Parser) (url : String)
    (ws we : Int) : Except RCError (List Record) :=
  match p.parse (fetch url) with
  | .error e => .error e
  | .ok doc =>
    match between doc ws we with
    | .error e => .error e
    | .ok occs => normalizeEvents (occs.map Occurrence.props)

end Backend

/-- Properties shared by the witness calendars: a summary, a zoned
start (`wall 7200`, offset `+3600`, instant `3600`) and a duration. -/
def sampleProps : Props :=
  [("summary", .vText "Meeting"),
   ("dtstart", .vDDDTypes (.datetime 7200 3600)),
   ("duration", .vDDDTypes (.timedelta 1800))]

/-- The occurrences the witness calendar expands to in `[0, 86400)`. -/
def sampleOccs : List Occurrence := [⟨3600, sampleProps⟩]

/-- Concrete parser used by witnesses: it accepts every input and
denotes a document with one event at instant `3600` carrying a summary,
a zoned start and a duration. -/
def sampleParser : Parser where
  wellFormed _ := true
  docOf _ := ⟨[⟨[3600], fun _ => sampleProps⟩]⟩

/-- Concrete parser used by the C7 witness: it rejects every input
(standing for a parser pointed at a malformed document). -/
def rejectAllParser : Parser where
  wellFormed _ := false
  docOf _ := ⟨[]⟩

end Robotica


namespace Robotica

namespace Tokio

theorem normalizeValue_isCanonical {i : String} {v : PyValue} {nv : RecValue}
    (h : normalizeValue i v = .ok nv) : nv.isCanonical = true := by
  cases v with
  | vDDDTypes dt =>
    cases dt <;> simp [normalizeValue] at h <;> subst h <;>
      simp [RecValue.isCanonical]
  | vText s => simp [normalizeValue] at h; subst h; simp [RecValue.isCanonical]
  | int n => simp [normalizeValue] at h; subst h; simp [RecValue.isCanonical]
  | str s => simp [normalizeValue] at h; subst h; simp [RecValue.isCanonical]
  | other r => simp [normalizeValue] at h

theorem normalizeValue_ok_of_mappable {i : String} {v : PyValue}
    (h : v.isMappable = true) : ∃ nv, normalizeValue i v = .ok nv := by
  cases v with
  | vDDDTypes dt => cases dt <;> simp_all [PyValue.isMappable, normalizeValue]
  | vText s => exact ⟨_, rfl⟩
  | int n => exact ⟨_, rfl⟩
  | str s => exact ⟨_, rfl⟩
  | other r => simp [PyValue.isMappable] at h

theorem normalizeValue_error_of_unmappable {i : String} {v : PyValue}
    (h : v.isMappable = false) :
    ∃ e, normalizeValue i v = .error e ∧ e.key? = some i := by
  cases v with
  | vDDDTypes dt =>
    cases dt <;> simp_all [PyValue.isMappable, normalizeValue, RCError.key?]
  | vText s => simp [PyValue.isMappable] at h
  | int n => simp [PyValue.isMappable] at h
  | str s => simp [PyValue.isMappable] at h
  | other r => exact ⟨_, rfl, rfl⟩

theorem normalizeEvent_keys {props : Props} {r : Record}
    (h : normalizeEvent props = .ok r) :
    r.map Prod.fst = props.map Prod.fst := by
  induction props generalizing r with
  | nil => simp [normalizeEvent] at h; subst h; rfl
  | cons p rest ih =>
    obtain ⟨i, v⟩ := p
    cases hv : normalizeValue i v with
    | error e => simp [normalizeEvent, hv] at h
    | ok nv =>
      cases hr : normalizeEvent rest with
      | error e => simp [normalizeEvent, hv, hr] at h
      | ok r' =>
        simp [normalizeEvent, hv, hr] at h
        subst h
        simpa using ih hr

theorem normalizeEvent_mem {props : Props} {r : Record} {k : String}
    {v : PyValue} {nv : RecValue} (h : normalizeEvent props = .ok r)
    (hmem : (k, v) ∈ props) (hnv : normalizeValue k v = .ok nv) :
    (k, nv) ∈ r := by
  induction props generalizing r with
  | nil => simp at hmem
  | cons p rest ih =>
    obtain ⟨i, w⟩ := p
    cases hv : normalizeValue i w with
    | error e => simp [normalizeEvent, hv] at h
    | ok nw =>
      cases hr : normalizeEvent rest with
      | error e => simp [normalizeEvent, hv, hr] at h
      | ok r' =>
        simp [normalizeEvent, hv, hr] at h
        subst h
        rcases List.mem_cons.mp hmem with heq | hmem'
        · rw [Prod.mk.injEq] at heq
          obtain ⟨hk, hw⟩ := heq
          subst hk; subst hw
          rw [hv] at hnv
          cases hnv
          exact List.mem_cons_self _ _
        · exact List.mem_cons_of_mem _ (ih hr hmem')

theorem normalizeEvent_values_canonical {props : Props} {r : Record}
    (h : normalizeEvent props = .ok r) :
    ∀ q ∈ r, (Prod.snd q).isCanonical = true := by
  induction props generalizing r with
  | nil => simp [normalizeEvent] at h; subst h; simp
  | cons p rest ih =>
    obtain ⟨i, v⟩ := p
    cases hv : normalizeValue i v with
    | error e => simp [normalizeEvent, hv] at h
    | ok nv =>
      cases hr : normalizeEvent rest with
      | error e => simp [normalizeEvent, hv, hr] at h
      | ok r' =>
        simp [normalizeEvent, hv, hr] at h
        subst h
        intro q hq
        rcases List.mem_cons.mp hq with heq | hq'
        · subst heq; exact normalizeValue_isCanonical hv
        · exact ih hr q hq'

theorem normalizeEvent_error_of_mem {props : Props} {k : String}
    {v : PyValue} (hmem : (k, v) ∈ props) (hbad : v.isMappable = false) :
    ∃ e, normalizeEvent props = .error e := by
  induction props with
  | nil => simp at hmem
  | cons p rest ih =>
    obtain ⟨i, w⟩ := p
    cases hv : normalizeValue i w with
    | error e => exact ⟨e, by simp [normalizeEvent, hv]⟩
    | ok nw =>
      rcases List.mem_cons.mp hmem with heq | hmem'
      · rw [Prod.mk.injEq] at heq
        obtain ⟨hk, hw⟩ := heq
        subst hk; subst hw
        obtain ⟨e, he, _⟩ := normalizeValue_error_of_unmappable (i := k) hbad
        rw [hv] at he
        cases he
      · obtain ⟨e, he⟩ := ih hmem'
        exact ⟨e, by simp [normalizeEvent, hv, he]⟩

end Tokio

end Robotica

namespace Robotica

namespace Tokio

theorem normalizeEvents_get {l : List Props} {rs : List Record}
    (h : normalizeEvents l = .ok rs) :
    rs.length = l.length ∧
      ∀ (k : Nat) (hk : k < l.length) (hk' : k < rs.length),
        normalizeEvent (l.get ⟨k, hk⟩) = .ok (rs.get ⟨k, hk'⟩) := by
  induction l generalizing rs with
  | nil =>
    simp [normalizeEvents] at h
    subst h
    exact ⟨rfl, fun k hk => by simp at hk⟩
  | cons ev rest ih =>
    cases hv : normalizeEvent ev with
    | error e => simp [normalizeEvents, hv] at h
    | ok r =>
      cases hr : normalizeEvents rest with
      | error e => simp [normalizeEvents, hv, hr] at h
      | ok rs' =>
        simp [normalizeEvents, hv, hr] at h
        subst h
        obtain ⟨hlen, hget⟩ := ih hr
        refine ⟨by simp [hlen], ?_⟩
        intro k hk hk'
        cases k with
        | zero => simpa using hv
        | succ k =>
          simpa using hget k (by simpa using hk) (by simpa using hk')

theorem normalizeEvents_records {l : List Props} {rs : List Record}
    (h : normalizeEvents l = .ok rs) :
    ∀ r ∈ rs, ∃ ev ∈ l, normalizeEvent ev = .ok r := by
  induction l generalizing rs with
  | nil => simp [normalizeEvents] at h; subst h; simp
  | cons ev rest ih =>
    cases hv : normalizeEvent ev with
    | error e => simp [normalizeEvents, hv] at h
    | ok r =>
      cases hr : normalizeEvents rest with
      | error e => simp [normalizeEvents, hv, hr] at h
      | ok rs' =>
        simp [normalizeEvents, hv, hr] at h
        subst h
        intro r' hr'
        rcases List.mem_cons.mp hr' with heq | hr''
        · exact ⟨ev, List.mem_cons_self _ _, heq ▸ hv⟩
        · obtain ⟨ev', hev', hok⟩ := ih hr r' hr''
          exact ⟨ev', List.mem_cons_of_mem _ hev', hok⟩

theorem normalizeEvents_error_of_mem {l : List Props} {ev : Props}
    {k : String} {v : PyValue} (hev : ev ∈ l) (hmem : (k, v) ∈ ev)
    (hbad : v.isMappable = false) : ∃ e, normalizeEvents l = .error e := by
  induction l with
  | nil => simp at hev
  | cons ev' rest ih =>
    cases hv : normalizeEvent ev' with
    | error e => exact ⟨e, by simp [normalizeEvents, hv]⟩
    | ok r =>
      rcases List.mem_cons.mp hev with heq | hev'
      · subst heq
        obtain ⟨e, he⟩ := normalizeEvent_error_of_mem hmem hbad
        rw [hv] at he
        cases he
      · obtain ⟨e, he⟩ := ih hev'
        exact ⟨e, by simp [normalizeEvents, hv, he]⟩

end Tokio

theorem between_ok_flatMap {doc : CalendarDocument} {ws we : Int}
    {occs : List Occurrence} (h : between doc ws we = .ok occs) :
    occs = doc.events.flatMap fun ev => occurrencesIn ev ws we := by
  unfold between at h
  split at h
  · cases h
  · cases h; rfl

theorem between_mem_window {doc : CalendarDocument} {ws we : Int}
    {occs : List Occurrence} (h : between doc ws we = .ok occs) :
    ∀ o ∈ occs, ws ≤ o.start ∧ o.start < we := by
  intro o ho
  rw [between_ok_flatMap h] at ho
  rw [List.mem_flatMap] at ho
  obtain ⟨ev, _, ho⟩ := ho
  unfold occurrencesIn at ho
  rw [List.mem_map] at ho
  obtain ⟨t, ht, rfl⟩ := ho
  rw [List.mem_filter] at ht
  obtain ⟨_, ht⟩ := ht
  simp only [Bool.and_eq_true, decide_eq_true_eq] at ht
  exact ht

theorem between_error_of_reversed {doc : CalendarDocument} {ws we : Int}
    (h : we < ws) : between doc ws we = .error .invalidWindow := by
  unfold between
  simp [h]

namespace Tokio

theorem read_calendar_ok_elim {p : Parser} {ical : String} {ws we : Int}
    {rs : List Record} (h : read_calendar p ical ws we = .ok rs) :
    ∃ doc occs, p.parse ical = .ok doc ∧ between doc ws we = .ok occs ∧
      normalizeEvents (occs.map Occurrence.props) = .ok rs := by
  cases hp : p.parse ical with
  | error e => simp [read_calendar, hp] at h
  | ok doc =>
    cases hb : between doc ws we with
    | error e => simp [read_calendar, hp, hb] at h
    | ok occs =>
      simp [read_calendar, hp, hb] at h
      exact ⟨doc, occs, rfl, hb, h⟩

end Tokio

end Robotica

namespace Robotica

/-- C1: for every calendar document, window, and occurrence produced by
expansion, every property value in every record returned by
`read_calendar` is one of the five canonical kinds (UTC-zoned instant,
civil date, duration, integer, text); a property whose value has any
other shape makes the whole call fail, and on success no property of an
occurrence is dropped from its record. -/
theorem read_calendar_canonical_kinds :
    (∀ (p : Parser) (ical : String) (ws we : Int) (rs : List Record),
      Tokio.read_calendar p ical ws we = .ok rs →
      ∀ r ∈ rs, ∀ q ∈ r, (Prod.snd q).isCanonical = true) ∧
    (∀ (l : List Props) (ev : Props) (k : String) (v : PyValue),
      ev ∈ l → (k, v) ∈ ev → v.isMappable = false →
      ∃ e, Tokio.normalizeEvents l = .error e) ∧
    (∀ (ev : Props) (r : Record) (k : String) (v : PyValue),
      Tokio.normalizeEvent ev = .ok r → (k, v) ∈ ev →
      ∃ nv, (k, nv) ∈ r) := by
  refine ⟨?_, ?_, ?_⟩
  · intro p ical ws we rs h r hr q hq
    obtain ⟨doc, occs, _, _, hn⟩ := Tokio.read_calendar_ok_elim h
    obtain ⟨ev, _, hok⟩ := Tokio.normalizeEvents_records hn r hr
    exact Tokio.normalizeEvent_values_canonical hok q hq
  · intro l ev k v hev hmem hbad
    exact Tokio.normalizeEvents_error_of_mem hev hmem hbad
  · intro ev r k v h hmem
    have hkeys := Tokio.normalizeEvent_keys h
    have hk : k ∈ r.map Prod.fst := by
      rw [hkeys]
      exact List.mem_map.mpr ⟨(k, v), hmem, rfl⟩
    obtain ⟨q, hq, hfst⟩ := List.mem_map.mp hk
    exact ⟨q.2, by rwa [← hfst, Prod.mk.eta]⟩

/-- Witness for C1 at a concrete calendar and a concrete bad property. -/
theorem read_calendar_canonical_kinds_witness :
    (∀ r ∈ [[("summary", RecValue.vText "Meeting"),
             ("dtstart", RecValue.datetime 3600 0),
             ("duration", RecValue.timedelta 1800)]],
      ∀ q ∈ r, (Prod.snd q).isCanonical = true) ∧
    (∃ e, Tokio.normalizeEvents [[("exdate", PyValue.other "vDDDLists")]] =
      .error e) := by
  constructor
  · exact read_calendar_canonical_kinds.1 sampleParser "BEGIN VCALENDAR"
      0 86400 _ (by rfl)
  · exact read_calendar_canonical_kinds.2.1
      [[("exdate", PyValue.other "vDDDLists")]]
      [("exdate", PyValue.other "vDDDLists")] "exdate"
      (PyValue.other "vDDDLists") (by simp) (by simp) (by decide)

end Robotica

namespace Robotica

/-- C2: a property carrying an aware date-time value is output as a
UTC-zoned instant (offset `0`) denoting the same absolute moment, and
two date-time values denoting the same absolute instant in different
zones normalize to identical values. -/
theorem datetime_normalized_to_utc :
    (∀ (props : Props) (r : Record) (k : String) (wall offset : Int),
      Tokio.normalizeEvent props = .ok r →
      (k, .vDDDTypes (.datetime wall offset)) ∈ props →
      (k, RecValue.datetime (instantOf wall offset) 0) ∈ r) ∧
    (∀ (wall offset : Int),
      instantOf (instantOf wall offset) 0 = instantOf wall offset) ∧
    (∀ (i : String) (w1 o1 w2 o2 : Int),
      instantOf w1 o1 = instantOf w2 o2 →
      Tokio.normalizeValue i (.vDDDTypes (.datetime w1 o1)) =
        Tokio.normalizeValue i (.vDDDTypes (.datetime w2 o2))) := by
  refine ⟨?_, ?_, ?_⟩
  · intro props r k wall offset h hmem
    exact Tokio.normalizeEvent_mem h hmem (by simp [Tokio.normalizeValue, instantOf])
  · intro wall offset
    simp [instantOf]
  · intro i w1 o1 w2 o2 heq
    simp only [instantOf] at heq
    simp [Tokio.normalizeValue, heq]

/-- Witness for C2: `10:00+01:00` and `09:00Z` (as second counts) are
the same instant and both normalize to the same UTC record value. -/
theorem datetime_normalized_to_utc_witness :
    (("dtstart", RecValue.datetime (instantOf 36000 3600) 0) ∈
      [("dtstart", RecValue.datetime 32400 0)]) ∧
    Tokio.normalizeValue "dtstart" (.vDDDTypes (.datetime 36000 3600)) =
      Tokio.normalizeValue "dtstart" (.vDDDTypes (.datetime 32400 0)) := by
  constructor
  · exact datetime_normalized_to_utc.1
      [("dtstart", .vDDDTypes (.datetime 36000 3600))]
      [("dtstart", RecValue.datetime 32400 0)]
      "dtstart" 36000 3600 (by rfl) (by simp)
  · exact datetime_normalized_to_utc.2.2 "dtstart" 36000 3600 32400 0 (by decide)

/-- C3: a property carrying a pure calendar date is passed through
unchanged as a civil date equal to the original date; by the shape of
`RecValue.date` it carries no time-of-day and no time zone. -/
theorem date_passed_through :
    (∀ (i : String) (d : Int),
      Tokio.normalizeValue i (.vDDDTypes (.date d)) = .ok (.date d)) ∧
    (∀ (props : Props) (r : Record) (k : String) (d : Int),
      Tokio.normalizeEvent props = .ok r →
      (k, .vDDDTypes (.date d)) ∈ props →
      (k, RecValue.date d) ∈ r) := by
  refine ⟨fun i d => rfl, ?_⟩
  intro props r k d h hmem
  exact Tokio.normalizeEvent_mem h hmem rfl

/-- Witness for C3 at a concrete all-day event property. -/
theorem date_passed_through_witness :
    ("dtstart", RecValue.date 737494) ∈
      [("summary", RecValue.vText "Birthday"), ("dtstart", RecValue.date 737494)] :=
  date_passed_through.2
    [("summary", .vText "Birthday"), ("dtstart", .vDDDTypes (.date 737494))]
    [("summary", RecValue.vText "Birthday"), ("dtstart", RecValue.date 737494)]
    "dtstart" 737494 (by rfl) (by simp)

/-- C4 counterexample: a property whose value is not a `vDDDTypes`
wrapper and not text or an integer (here an `exdate` carrying a
`vDDDLists`) makes the call fail, but the raised error
(`RuntimeError(f"Unknown type for {i}")` in the source) identifies only
the property name and not the raw value, contradicting the claim that
the error identifies both. -/
theorem unsupported_property_error_omits_value :
    Tokio.normalizeEvents [[("exdate", PyValue.other "vDDDLists(20190310)")]] =
      .error (.unknownType "exdate") ∧
    RCError.value? (.unknownType "exdate") = none ∧
    RCError.key? (.unknownType "exdate") = some "exdate" := ⟨rfl, rfl, rfl⟩

/-- C4 (amended): a property value whose shape is none of the five
canonical kinds makes the whole call fail with an error identifying the
offending property name; the raw value is identified as well exactly
when the value is a `vDDDTypes` wrapper with an unrecognized inner
object (the source's first `RuntimeError` interpolates the value, the
second interpolates only the key); no partial record set is returned. -/
theorem unsupported_property_fails :
    (∀ (i : String) (v : PyValue), v.isMappable = false →
      ∃ e, Tokio.normalizeValue i v = .error e ∧ e.key? = some i ∧
        ∀ r, v = .vDDDTypes (.other r) → e.value? = some r) ∧
    (∀ (l : List Props) (ev : Props) (k : String) (v : PyValue),
      ev ∈ l → (k, v) ∈ ev → v.isMappable = false →
      (∃ e, Tokio.normalizeEvents l = .error e) ∧
      ∀ rs, Tokio.normalizeEvents l ≠ .ok rs) := by
  constructor
  · intro i v hbad
    cases v with
    | vDDDTypes dt =>
      cases dt with
      | other r =>
        exact ⟨.unknownDDDType r i, rfl, rfl, fun r' hr' => by
          cases hr'; rfl⟩
      | datetime w o => simp [PyValue.isMappable] at hbad
      | date d => simp [PyValue.isMappable] at hbad
      | timedelta s => simp [PyValue.isMappable] at hbad
    | vText s => simp [PyValue.isMappable] at hbad
    | int n => simp [PyValue.isMappable] at hbad
    | str s => simp [PyValue.isMappable] at hbad
    | other r => exact ⟨.unknownType i, rfl, rfl, fun r' hr' => by cases hr'⟩
  · intro l ev k v hev hmem hbad
    obtain ⟨e, he⟩ := Tokio.normalizeEvents_error_of_mem hev hmem hbad
    exact ⟨⟨e, he⟩, fun rs hok => by rw [he] at hok; cases hok⟩

/-- Witness for the amended C4 at both error shapes. -/
theorem unsupported_property_fails_witness :
    (∃ e, Tokio.normalizeValue "rrule" (.vDDDTypes (.other "vRecur")) = .error e ∧
      RCError.key? e = some "rrule" ∧
      ∀ r, PyValue.vDDDTypes (.other "vRecur") = .vDDDTypes (.other r) →
        RCError.value? e = some r) ∧
    (∃ e, Tokio.normalizeEvents [[("exdate", PyValue.other "vDDDLists")]] =
      .error e) := by
  constructor
  · exact unsupported_property_fails.1 "rrule" (.vDDDTypes (.other "vRecur"))
      (by decide)
  · exact (unsupported_property_fails.2
      [[("exdate", PyValue.other "vDDDLists")]]
      [("exdate", PyValue.other "vDDDLists")] "exdate"
      (PyValue.other "vDDDLists") (by simp) (by simp) (by decide)).1

end Robotica

namespace Robotica

/-- C5: a call whose window has `window_start > window_end` fails with
`InvalidWindowError` and never returns a (possibly empty) record
sequence.  The window check lives in the spec-modelled expansion step
`between`; at the `read_calendar` level the parse step runs first, so
the `InvalidWindowError` surfaces for every well-formed input and no
record sequence is ever returned for any input. -/
theorem invalid_window_fails :
    (∀ (doc : CalendarDocument) (ws we : Int), we < ws →
      between doc ws we = .error .invalidWindow) ∧
    (∀ (p : Parser) (ical : String) (ws we : Int), we < ws →
      p.wellFormed ical = true →
      Tokio.read_calendar p ical ws we = .error .invalidWindow) ∧
    (∀ (p : Parser) (ical : String) (ws we : Int) (rs : List Record),
      we < ws → Tokio.read_calendar p ical ws we ≠ .ok rs) := by
  refine ⟨?_, ?_, ?_⟩
  · intro doc ws we h
    exact between_error_of_reversed h
  · intro p ical ws we h hwf
    simp [Tokio.read_calendar, Parser.parse, hwf, between_error_of_reversed h]
  · intro p ical ws we rs h hok
    obtain ⟨doc, occs, _, hb, _⟩ := Tokio.read_calendar_ok_elim hok
    rw [between_error_of_reversed h] at hb
    cases hb

/-- Witness for C5 at the concrete window `[10, 3)`. -/
theorem invalid_window_fails_witness :
    Tokio.read_calendar sampleParser "BEGIN VCALENDAR" 10 3 =
      .error .invalidWindow :=
  invalid_window_fails.2.1 sampleParser "BEGIN VCALENDAR" 10 3
    (by decide) rfl

/-- C6: the window is half-open on the end.  A recurring event whose
expansion generates the instants `t1 < t2 < t3` yields, for the window
`[t1, t2)`, exactly the single occurrence at `t1` — the occurrence at
`t2 = window_end` is excluded — and in general every occurrence of a
successful expansion starts strictly before `window_end`.  (The window
filter is the spec-modelled expansion step.) -/
theorem window_half_open :
    (∀ (pr : Int → Props) (t1 t2 t3 : Int), t1 < t2 → t2 < t3 →
      between ⟨[⟨[t1, t2, t3], pr⟩]⟩ t1 t2 = .ok [⟨t1, pr t1⟩]) ∧
    (∀ (doc : CalendarDocument) (ws we : Int) (occs : List Occurrence),
      between doc ws we = .ok occs → ∀ o ∈ occs, ws ≤ o.start ∧ o.start < we) := by
  constructor
  · intro pr t1 t2 t3 h12 h23
    have hnw : ¬ t2 < t1 := not_lt.mpr h12.le
    simp [between, hnw, occurrencesIn, h12, le_refl, lt_irrefl,
      not_lt.mpr h12.le, not_lt.mpr (h12.trans h23).le]
    omega
  · intro doc ws we occs h o ho
    exact between_mem_window h o ho

/-- Witness for C6 at the instants `0 < 10 < 20`, window `[0, 10)`. -/
theorem window_half_open_witness :
    between ⟨[⟨[0, 10, 20], fun _ => [("summary", .vText "t")]⟩]⟩ 0 10 =
      .ok [⟨0, [("summary", .vText "t")]⟩] :=
  window_half_open.1 (fun _ => [("summary", .vText "t")]) 0 10 20
    (by decide) (by decide)

/-- C7: a non-well-formed input makes the whole call fail with
`ParseError`: the spec-modelled parser yields no document for it, and
`read_calendar` returns no partial record sequence — its only result
for such an input is `ParseError`, whatever the window. -/
theorem parse_failure_fatal :
    (∀ (p : Parser) (ical : String), p.wellFormed ical = false →
      p.parse ical = .error .parseError) ∧
    (∀ (p : Parser) (ical : String) (ws we : Int), p.wellFormed ical = false →
      Tokio.read_calendar p ical ws we = .error .parseError) := by
  constructor
  · intro p ical h
    simp [Parser.parse, h]
  · intro p ical ws we h
    simp [Tokio.read_calendar, Parser.parse, h]

/-- Witness for C7 at a concrete malformed input. -/
theorem parse_failure_fatal_witness :
    Tokio.read_calendar rejectAllParser "BEGIN VEVENT no terminator" 0 10 =
      .error .parseError :=
  parse_failure_fatal.2 rejectAllParser "BEGIN VEVENT no terminator" 0 10 rfl

end Robotica

namespace Robotica

theorem backend_normalizeValue_eq (i : String) (v : PyValue) :
    Backend.normalizeValue i v = Tokio.normalizeValue i v := by
  cases v with
  | vDDDTypes dt => cases dt <;> rfl
  | vText s => rfl
  | int n => rfl
  | str s => rfl
  | other r => rfl

theorem backend_normalizeEvent_eq (props : Props) :
    Backend.normalizeEvent props = Tokio.normalizeEvent props := by
  induction props with
  | nil => rfl
  | cons p rest ih =>
    obtain ⟨i, v⟩ := p
    simp [Backend.normalizeEvent, Tokio.normalizeEvent,
      backend_normalizeValue_eq, ih]

theorem backend_normalizeEvents_eq (l : List Props) :
    Backend.normalizeEvents l = Tokio.normalizeEvents l := by
  induction l with
  | nil => rfl
  | cons ev rest ih =>
    simp [Backend.normalizeEvents, Tokio.normalizeEvents,
      backend_normalizeEvent_eq, ih]

/-- C8: records come back in the order the occurrences were produced.
Occurrences are produced in document order of the events (the
expansion is the flat concatenation over `doc.events`), each event's
windowed occurrences are in chronological order whenever its generated
instants are (the spec guarantees chronological generation), and the
`k`-th returned record is the normalization of the `k`-th occurrence. -/
theorem records_in_occurrence_order :
    ∀ (doc : CalendarDocument) (ws we : Int) (occs : List Occurrence)
      (rs : List Record),
      between doc ws we = .ok occs →
      Tokio.normalizeEvents (occs.map Occurrence.props) = .ok rs →
      (occs = doc.events.flatMap fun ev => occurrencesIn ev ws we) ∧
      (∀ ev ∈ doc.events, ev.instants.Sorted (· < ·) →
        ((occurrencesIn ev ws we).map Occurrence.start).Sorted (· < ·)) ∧
      rs.length = occs.length ∧
      (∀ (k : Nat) (hk : k < occs.length) (hk' : k < rs.length),
        Tokio.normalizeEvent (occs.get ⟨k, hk⟩).props =
          .ok (rs.get ⟨k, hk'⟩)) := by
  intro doc ws we occs rs hb hn
  obtain ⟨hlen, hget⟩ := Tokio.normalizeEvents_get hn
  refine ⟨between_ok_flatMap hb, ?_, by simpa using hlen, ?_⟩
  · intro ev _ hsorted
    have hmap : (occurrencesIn ev ws we).map Occurrence.start =
        ev.instants.filter fun t => decide (ws ≤ t) && decide (t < we) := by
      simp only [occurrencesIn, List.map_map]
      have hcomp : (Occurrence.start ∘ fun t => (⟨t, ev.propsAt t⟩ : Occurrence)) =
          fun t => t := rfl
      rw [hcomp]
      simp
    rw [hmap]
    exact List.Pairwise.sublist (List.filter_sublist _) hsorted
  · intro k hk hk'
    have hk2 : k < (occs.map Occurrence.props).length := by simpa using hk
    have h2 := hget k hk2 hk'
    simpa [List.get_eq_getElem, List.getElem_map] using h2

/-- Witness for C8: the witness calendar document with the window
`[0, 86400)`, one occurrence and one record. -/
theorem records_in_occurrence_order_witness :
    (sampleOccs = (Parser.docOf sampleParser "BEGIN VCALENDAR").events.flatMap
        fun ev => occurrencesIn ev 0 86400) ∧
    (∀ ev ∈ (Parser.docOf sampleParser "BEGIN VCALENDAR").events,
      ev.instants.Sorted (· < ·) →
        ((occurrencesIn ev 0 86400).map Occurrence.start).Sorted (· < ·)) ∧
    ([[("summary", RecValue.vText "Meeting"),
       ("dtstart", RecValue.datetime 3600 0),
       ("duration", RecValue.timedelta 1800)]] : List Record).length =
      sampleOccs.length ∧
    (∀ (k : Nat) (hk : k < sampleOccs.length)
      (hk' : k < ([[("summary", RecValue.vText "Meeting"),
        ("dtstart", RecValue.datetime 3600 0),
        ("duration", RecValue.timedelta 1800)]] : List Record).length),
      Tokio.normalizeEvent (sampleOccs.get ⟨k, hk⟩).props =
        .ok (([[("summary", RecValue.vText "Meeting"),
          ("dtstart", RecValue.datetime 3600 0),
          ("duration", RecValue.timedelta 1800)]] : List Record).get ⟨k, hk'⟩)) :=
  records_in_occurrence_order (Parser.docOf sampleParser "BEGIN VCALENDAR")
    0 86400 sampleOccs
    [[("summary", RecValue.vText "Meeting"),
      ("dtstart", RecValue.datetime 3600 0),
      ("duration", RecValue.timedelta 1800)]]
    (by rfl) (by rfl)

/-- C9: the two files compute the same normalization: pointwise equal
per-property dispatch, pointwise equal record loops, and whenever
fetching `url` yields the bytes `ical`, the backend
`read_calendar(url, start, end)` equals the tokio
`read_calendar(ical, start, end)`. -/
theorem backend_tokio_same_function :
    (∀ (i : String) (v : PyValue),
      Backend.normalizeValue i v = Tokio.normalizeValue i v) ∧
    (∀ (l : List Props),
      Backend.normalizeEvents l = Tokio.normalizeEvents l) ∧
    (∀ (fetch : String → String) (p : Parser) (url ical : String)
      (ws we : Int), fetch url = ical →
      Backend.read_calendar fetch p url ws we =
        Tokio.read_calendar p ical ws we) := by
  refine ⟨backend_normalizeValue_eq, backend_normalizeEvents_eq, ?_⟩
  intro fetch p url ical ws we hf
  subst hf
  cases hp : p.parse (fetch url) with
  | error e => simp [Backend.read_calendar, Tokio.read_calendar, hp]
  | ok doc =>
    cases hb : between doc ws we with
    | error e => simp [Backend.read_calendar, Tokio.read_calendar, hp, hb]
    | ok occs =>
      simp [Backend.read_calendar, Tokio.read_calendar, hp, hb,
        backend_normalizeEvents_eq]

/-- Witness for C9 with a concrete fetch capability and url. -/
theorem backend_tokio_same_function_witness :
    Backend.read_calendar (fun _ => "BEGIN VCALENDAR") sampleParser
      "http://tinyurl.com/y24m3r8f" 0 86400 =
    Tokio.read_calendar sampleParser "BEGIN VCALENDAR" 0 86400 :=
  backend_tokio_same_function.2.2 (fun _ => "BEGIN VCALENDAR") sampleParser
    "http://tinyurl.com/y24m3r8f" "BEGIN VCALENDAR" 0 86400 rfl

/-- C10: on success, `read_calendar` returns exactly one record per
expanded occurrence, in the same order, and the `k`-th record's key
sequence equals the `k`-th occurrence's key sequence — the
normalization changes values only. -/
theorem records_preserve_keys :
    ∀ (p : Parser) (ical : String) (ws we : Int) (rs : List Record),
      Tokio.read_calendar p ical ws we = .ok rs →
      ∃ doc occs, p.parse ical = .ok doc ∧ between doc ws we = .ok occs ∧
        rs.length = occs.length ∧
        ∀ (k : Nat) (hk : k < rs.length) (hk' : k < occs.length),
          (rs.get ⟨k, hk⟩).map Prod.fst =
            ((occs.get ⟨k, hk'⟩).props).map Prod.fst := by
  intro p ical ws we rs h
  obtain ⟨doc, occs, hp, hb, hn⟩ := Tokio.read_calendar_ok_elim h
  obtain ⟨hlen, hget⟩ := Tokio.normalizeEvents_get hn
  refine ⟨doc, occs, hp, hb, by simpa using hlen, ?_⟩
  intro k hk hk'
  have hk2 : k < (occs.map Occurrence.props).length := by simpa using hk'
  have h2 := hget k hk2 hk
  have h3 := Tokio.normalizeEvent_keys h2
  simpa [List.get_eq_getElem, List.getElem_map] using h3

/-- Witness for C10 at the witness calendar. -/
theorem records_preserve_keys_witness :
    ∃ doc occs, Parser.parse sampleParser "BEGIN VCALENDAR" = .ok doc ∧
      between doc 0 86400 = .ok occs ∧
      ([[("summary", RecValue.vText "Meeting"),
         ("dtstart", RecValue.datetime 3600 0),
         ("duration", RecValue.timedelta 1800)]] : List Record).length =
        occs.length ∧
      ∀ (k : Nat)
        (hk : k < ([[("summary", RecValue.vText "Meeting"),
          ("dtstart", RecValue.datetime 3600 0),
          ("duration", RecValue.timedelta 1800)]] : List Record).length)
        (hk' : k < occs.length),
        (([[("summary", RecValue.vText "Meeting"),
          ("dtstart", RecValue.datetime 3600 0),
          ("duration", RecValue.timedelta 1800)]] : List Record).get
            ⟨k, hk⟩).map Prod.fst =
          ((occs.get ⟨k, hk'⟩).props).map Prod.fst :=
  records_preserve_keys sampleParser "BEGIN VCALENDAR" 0 86400
    [[("summary", RecValue.vText "Meeting"),
      ("dtstart", RecValue.datetime 3600 0),
      ("duration", RecValue.timedelta 1800)]] (by rfl)

end Robotica
